import Mathlib

set_option maxHeartbeats 1000000

namespace AxFatFs

/-!
Shallow embedding of the axfatfs repository.

The only library source file present is `src/src/error.rs`; the error enum,
the `IoError` trait and its impls are embedded below directly from that file.
The filesystem engine itself (BPB classifier, FAT manager, directory engine,
file handle) is exercised only through the integration tests, so those parts
are modelled from the specification; each such definition carries a doc
comment starting with "Modelled from the spec:".
-/

/-- Error enum from src/src/error.rs: all errors that can be returned by
functions from this crate. `Io` wraps the user storage's own error value. -/
inductive Error (T : Type) where
  | Io : T → Error T
  | UnexpectedEof : Error T
  | WriteZero : Error T
  | InvalidInput : Error T
  | NotFound : Error T
  | AlreadyExists : Error T
  | DirectoryIsNotEmpty : Error T
  | CorruptedFileSystem : Error T
  | NotEnoughSpace : Error T
  | InvalidFileNameLength : Error T
  | UnsupportedFileNameCharacter : Error T
deriving DecidableEq, Repr

/-- IoError trait from src/src/error.rs, as a capability record: storage
error types expose an interruption test and the two transport-fault
constructors. -/
structure IoErrorTrait (T : Type) where
  is_interrupted : T → Bool
  new_unexpected_eof_error : T
  new_write_zero_error : T

/-- The `impl IoError for ()` of src/src/error.rs: never interrupted, unit
constructors. -/
def unitIoError : IoErrorTrait Unit where
  is_interrupted := fun _ => false
  new_unexpected_eof_error := ()
  new_write_zero_error := ()

/-- The `impl<T> IoError for Error<T>` of src/src/error.rs: `Io(io_error)`
delegates to the inner error's `is_interrupted`, every other variant answers
`false`; the constructors build `UnexpectedEof` and `WriteZero`. -/
def errorIoError (T : Type) (inst : IoErrorTrait T) : IoErrorTrait (Error T) where
  is_interrupted := fun e =>
    match e with
    | Error.Io io_error => inst.is_interrupted io_error
    | _ => false
  new_unexpected_eof_error := Error.UnexpectedEof
  new_write_zero_error := Error.WriteZero

/-- The `From<T> for Error<T>` impl of src/src/error.rs. -/
def errorFrom (T : Type) (error : T) : Error T := Error.Io error

/-- The std::io::ErrorKind values used by src/src/error.rs. -/
inductive ErrorKind where
  | UnexpectedEof
  | WriteZero
  | InvalidInput
  | NotFound
  | AlreadyExists
  | InvalidData
  | Interrupted
deriving DecidableEq, Repr

/-- Model of std::io::Error as src/src/error.rs uses it: either a
pre-existing error value carrying its kind and an abstract payload index, or
an error built by `std::io::Error::new(kind, source)` wrapping an `Error`
value as its source. -/
inductive StdIoError where
  | mk : ErrorKind → Nat → StdIoError
  | wrap : ErrorKind → Error StdIoError → StdIoError

/-- Kind of a modelled std::io::Error. -/
def StdIoError.kind : StdIoError → ErrorKind
  | StdIoError.mk k _ => k
  | StdIoError.wrap k _ => k

/-- The `From<Error<std::io::Error>> for std::io::Error` impl of
src/src/error.rs: `Io` returns the inner error itself; every other variant is
wrapped by `Self::new(kind, error)` with the kind the source gives it
(`UnexpectedEof` and `NotEnoughSpace` share `ErrorKind::UnexpectedEof`). -/
def errorIntoStdIoError (error : Error StdIoError) : StdIoError :=
  match error with
  | Error.Io io_error => io_error
  | Error.UnexpectedEof | Error.NotEnoughSpace =>
      StdIoError.wrap ErrorKind.UnexpectedEof error
  | Error.WriteZero => StdIoError.wrap ErrorKind.WriteZero error
  | Error.InvalidInput | Error.InvalidFileNameLength
  | Error.UnsupportedFileNameCharacter | Error.DirectoryIsNotEmpty =>
      StdIoError.wrap ErrorKind.InvalidInput error
  | Error.NotFound => StdIoError.wrap ErrorKind.NotFound error
  | Error.AlreadyExists => StdIoError.wrap ErrorKind.AlreadyExists error
  | Error.CorruptedFileSystem => StdIoError.wrap ErrorKind.InvalidData error

/-- The `impl IoError for std::io::Error` of src/src/error.rs:
`is_interrupted` tests `kind() == ErrorKind::Interrupted`. -/
def stdIoErrorIoError : IoErrorTrait StdIoError where
  is_interrupted := fun e => e.kind = ErrorKind.Interrupted
  new_unexpected_eof_error := StdIoError.mk ErrorKind.UnexpectedEof 0
  new_write_zero_error := StdIoError.mk ErrorKind.WriteZero 0

/-- Variant tag of a mounted volume: FAT12, FAT16 or FAT32. -/
inductive FatType where
  | Fat12 : FatType
  | Fat16 : FatType
  | Fat32 : FatType
deriving DecidableEq, Repr

/-- Modelled from the spec: the BPB fields variant classification uses; the
boot-sector parser itself is not among the repository's source files. -/
structure Bpb where
  bytes_per_sector : Nat
  sectors_per_cluster : Nat
  reserved_sectors : Nat
  fats : Nat
  root_entries : Nat
  total_sectors : Nat
  sectors_per_fat : Nat
deriving DecidableEq, Repr

/-- Modelled from the spec: root_dir_sectors = ceil(root_entries * 32 /
bytes_per_sector). -/
def rootDirSectors (b : Bpb) : Nat :=
  (b.root_entries * 32 + b.bytes_per_sector - 1) / b.bytes_per_sector

/-- Modelled from the spec: the data-cluster count
N = (total_sectors - reserved - fats * sectors_per_fat - root_dir_sectors) /
sectors_per_cluster. -/
def dataClusters (b : Bpb) : Nat :=
  (b.total_sectors - b.reserved_sectors - b.fats * b.sectors_per_fat -
    rootDirSectors b) / b.sectors_per_cluster

/-- Modelled from the spec: BPB validation accepts bytes-per-sector a power of
two in [512, 4096], sectors-per-cluster a power of two in [1, 128], a nonzero
reserved-sector count, and 1 or 2 FATs. -/
def validBpb (b : Bpb) : Prop :=
  b.bytes_per_sector ∈ ([512, 1024, 2048, 4096] : List Nat) ∧
  b.sectors_per_cluster ∈ ([1, 2, 4, 8, 16, 32, 64, 128] : List Nat) ∧
  1 ≤ b.reserved_sectors ∧ (b.fats = 1 ∨ b.fats = 2)

instance (b : Bpb) : Decidable (validBpb b) := by
  unfold validBpb; infer_instance

/-- Modelled from the spec: variant classification at mount time — N < 4085
is FAT12, N < 65525 is FAT16, anything else FAT32. -/
def classifyVariant (b : Bpb) : FatType :=
  if dataClusters b < 4085 then FatType.Fat12
  else if dataClusters b < 65525 then FatType.Fat16
  else FatType.Fat32

/-- Modelled from the spec: the characters rejected in long file names —
anything below 0x20 and the set `" * / : < > ? \ |`. -/
def rejectedNameChar (c : Nat) : Bool :=
  c < 0x20 || c == 0x22 || c == 0x2A || c == 0x2F || c == 0x3A ||
  c == 0x3C || c == 0x3E || c == 0x3F || c == 0x5C || c == 0x7C

/-- Modelled from the spec: name validation performed by create — an empty
(or over-long, past the 20-slot times 13-character LFN capacity) name fails
with `InvalidFileNameLength`, a rejected character fails with
`UnsupportedFileNameCharacter`; the function is total, so no input aborts.
Names are lists of code points. -/
def validateName (name : List Nat) : Except (Error Unit) Unit :=
  if name.length = 0 || 260 < name.length then
    Except.error Error.InvalidFileNameLength
  else if name.any rejectedNameChar then
    Except.error Error.UnsupportedFileNameCharacter
  else Except.ok ()

/-- Modelled from the spec: one logical directory entry — its (case-folded)
name, whether its slots are 0xE5-marked deleted, and the stored metadata the
rename path preserves (first cluster and size; timestamps are not modelled).
Free slots are modelled by absence from the list. -/
structure DirEntry where
  name : String
  deleted : Bool
  first_cluster : Nat
  size : Nat
  is_dir : Bool
deriving DecidableEq, Repr

/-- Modelled from the spec: lookup of a live (non-deleted) entry by name. -/
def dirLookup (d : List DirEntry) (n : String) : Option DirEntry :=
  d.find? (fun e => !e.deleted && e.name == n)

/-- Modelled from the spec: open of a file by name — `NotFound` when lookup
fails. -/
def openEntry (d : List DirEntry) (n : String) : Except (Error Unit) DirEntry :=
  match dirLookup d n with
  | some e => Except.ok e
  | none => Except.error Error.NotFound

/-- Modelled from the spec: marking a logical entry's slots deleted (0xE5). -/
def markDeleted (d : List DirEntry) (n : String) : List DirEntry :=
  d.map (fun e => if !e.deleted && e.name == n then { e with deleted := true } else e)

/-- Modelled from the spec: rename over the volume's directories (`dirs`,
indexed by `src` and `dst`, possibly equal — move and rename share one
implementation): fails `NotFound` when `a` is absent from the source,
`AlreadyExists` when `b` is live in the destination; otherwise marks `a`'s
slots deleted and creates a new entry for `b` in the destination preserving
first-cluster and size. -/
def rename (dirs : List (List DirEntry)) (src dst : Nat) (a b : String) :
    Except (Error Unit) (List (List DirEntry)) :=
  match dirLookup (dirs.getD src []) a with
  | none => Except.error Error.NotFound
  | some e =>
    if (dirLookup (dirs.getD dst []) b).isSome then Except.error Error.AlreadyExists
    else
      let dirs1 := dirs.set src (markDeleted (dirs.getD src []) a)
      let dirs2 := dirs1.set dst
        (dirs1.getD dst [] ++ [{ e with name := b, deleted := false }])
      Except.ok dirs2

/-- Dot entries `.` and `..`, present in every non-root directory. -/
def dotName (s : String) : Bool := s == "." || s == ".."

/-- Modelled from the spec: a directory counts as empty for remove when every
slot other than the `.` and `..` entries is deleted (free slots are absent
from the model's list). -/
def dirIsEmpty (d : List DirEntry) : Bool :=
  d.all (fun e => e.deleted || dotName e.name)

/-- Modelled from the spec: remove of the directory named `n` from `parent`,
where `sub` holds the contents of the directory `n` names: `NotFound` when
`n` is absent, `DirectoryIsNotEmpty` when `sub` holds a live entry other than
the dot entries (the error leaves every directory unchanged), otherwise the
entry's slots are marked deleted. -/
def removeDir (parent sub : List DirEntry) (n : String) :
    Except (Error Unit) (List DirEntry) :=
  match dirLookup parent n with
  | none => Except.error Error.NotFound
  | some _ =>
    if dirIsEmpty sub then Except.ok (markDeleted parent n)
    else Except.error Error.DirectoryIsNotEmpty

/-- Variant-dependent end-of-chain threshold (spec data model): an entry at
or above it marks the end of a chain. -/
def eocMin : FatType → Nat
  | FatType.Fat12 => 0xFF8
  | FatType.Fat16 => 0xFFF8
  | FatType.Fat32 => 0x0FFFFFF8

/-- Modelled from the spec: the volume state the FAT manager and file layer
mutate — bytes per cluster, the FAT (index = cluster number; entry 0 = free,
at or above the variant threshold = end of chain, otherwise the next
cluster), and the data region, one byte list per cluster. -/
structure FsState where
  cluster_size : Nat
  fat : List Nat
  data : List (List Nat)
deriving DecidableEq, Repr

/-- FAT entry of cluster c (0, the free marker, when out of range). -/
def fatGet (fs : FsState) (c : Nat) : Nat := fs.fat.getD c 0

/-- Data bytes of cluster c. -/
def clusterData (fs : FsState) (c : Nat) : List Nat := fs.data.getD c []

/-- Bytes of a cluster chain, concatenated in chain order. -/
def chainBytes (fs : FsState) (chain : List Nat) : List Nat :=
  (chain.map (clusterData fs)).flatten

/-- Modelled from the spec: walk of a cluster chain through the FAT, bounded
by the cluster count (a longer walk would mean a cycle); first cluster 0
encodes the empty chain. -/
def walkChain (v : FatType) (fat : List Nat) : Nat → Nat → List Nat
  | _, 0 => []
  | c, fuel + 1 =>
    if c = 0 then []
    else if eocMin v ≤ fat.getD c 0 then [c]
    else c :: walkChain v fat (fat.getD c 0) fuel

/-- The chain reachable from a first-cluster value in the FAT. -/
def chainOf (v : FatType) (fs : FsState) (first : Nat) : List Nat :=
  walkChain v fs.fat first (fs.fat.length + 1)

/-- Modelled from the spec: the bytes of the file a directory entry
describes — the chain walked from its stored first cluster, capped at its
stored size. -/
def entryBytes (v : FatType) (fs : FsState) (e : DirEntry) : List Nat :=
  (chainBytes fs (chainOf v fs e.first_cluster)).take e.size

/-- Modelled from the spec: file-handle state — the cluster chain the handle
walks (its head is the stored first cluster), the size, the position cursor,
and the dirty flag. -/
structure FileHandle where
  chain : List Nat
  size : Nat
  pos : Nat
  dirty : Bool
deriving DecidableEq, Repr

/-- Modelled from the spec: an absolute seek just moves the cursor; it may
walk past end-of-file. -/
def seekTo (h : FileHandle) (p : Nat) : FileHandle := { h with pos := p }

/-- Modelled from the spec: one positioned read — n = min(remaining within
the current cluster, remaining in the file, buffer length) bytes taken from
the current cluster, the cursor advancing by n. -/
def readStep (fs : FsState) (h : FileHandle) (bufLen : Nat) :
    List Nat × FileHandle :=
  let cs := fs.cluster_size
  let n := min (min (cs - h.pos % cs) (h.size - h.pos)) bufLen
  let c := h.chain.getD (h.pos / cs) 0
  (((clusterData fs c).drop (h.pos % cs)).take n, { h with pos := h.pos + n })

/-- Loop of read_to_end: positioned reads until one returns zero bytes; the
fuel bounds the loop (size + 1 steps suffice, each read advancing by at
least one byte). -/
def readToEndAux (fs : FsState) : Nat → FileHandle → List Nat
  | 0, _ => []
  | fuel + 1, h =>
    let r := readStep fs h (h.size - h.pos)
    if r.1.length = 0 then [] else r.1 ++ readToEndAux fs fuel r.2

/-- Modelled from the spec: read_to_end — read from the cursor to the end of
the file (reads are capped at size). -/
def readToEnd (fs : FsState) (h : FileHandle) : List Nat :=
  readToEndAux fs (h.size + 1) h

/-- Linear scan for a free FAT entry (entry 0) over cluster numbers
[start, start + len). -/
def findFreeIn (fat : List Nat) (start len : Nat) : Option Nat :=
  (List.range' start len).find? (fun c => fat.getD c 1 == 0)

/-- Modelled from the spec: find_free(hint) — linear scan from the hint,
wrapping once back to cluster 2; `NotEnoughSpace` when no free cluster
exists. -/
def findFree (fat : List Nat) (hint : Nat) : Except (Error Unit) Nat :=
  match findFreeIn fat hint (fat.length - hint) with
  | some c => Except.ok c
  | none =>
    match findFreeIn fat 2 (hint - 2) with
    | some c => Except.ok c
    | none => Except.error Error.NotEnoughSpace

/-- Modelled from the spec: extend_chain — allocate one free cluster, mark it
end-of-chain and link the old tail to it; freshly allocated clusters are not
pre-zeroed. -/
def extendChain (v : FatType) (fs : FsState) (chain : List Nat) :
    Except (Error Unit) (FsState × List Nat) :=
  match findFree fs.fat 2 with
  | Except.error e => Except.error e
  | Except.ok c =>
    let fat1 := fs.fat.set c (eocMin v)
    let fat2 :=
      match chain.getLast? with
      | some tail => fat1.set tail c
      | none => fat1
    Except.ok ({ fs with fat := fat2 }, chain ++ [c])

/-- Modelled from the spec: extend the chain until it covers cluster index
`i` (a write beyond the allocated chain allocates; the fuel bounds the loop,
i + 1 extensions always sufficing). -/
def ensureCover (v : FatType) : Nat → FsState → List Nat → Nat →
    Except (Error Unit) (FsState × List Nat)
  | 0, fs, chain, i =>
    if i < chain.length then Except.ok (fs, chain)
    else Except.error Error.CorruptedFileSystem
  | fuel + 1, fs, chain, i =>
    if i < chain.length then Except.ok (fs, chain)
    else
      match extendChain v fs chain with
      | Except.error e => Except.error e
      | Except.ok (fs1, chain1) => ensureCover v fuel fs1 chain1 i

/-- Loop of write_all: each step makes sure the cluster under the cursor is
allocated, writes min(remaining within the cluster, remaining bytes) into
it, advances the cursor and grows the size to the position reached; the fuel
bounds the loop (buf.length steps suffice, each consuming at least one
byte); a zero cluster size means a corrupted volume. -/
def writeAllAux (v : FatType) : Nat → FsState → FileHandle → List Nat →
    Except (Error Unit) (FsState × FileHandle)
  | _, fs, h, [] => Except.ok (fs, h)
  | 0, _, _, _ :: _ => Except.error Error.CorruptedFileSystem
  | fuel + 1, fs, h, buf =>
    if fs.cluster_size = 0 then Except.error Error.CorruptedFileSystem
    else
      let cs := fs.cluster_size
      let i := h.pos / cs
      match ensureCover v (i + 1) fs h.chain i with
      | Except.error e => Except.error e
      | Except.ok (fs1, chain1) =>
        let off := h.pos % cs
        let k := min (cs - off) buf.length
        let c := chain1.getD i 0
        let old := clusterData fs1 c
        let newBytes := old.take off ++ buf.take k ++ old.drop (off + k)
        let fs2 := { fs1 with data := fs1.data.set c newBytes }
        let h1 : FileHandle :=
          { chain := chain1, size := max h.size (h.pos + k), pos := h.pos + k,
            dirty := true }
        writeAllAux v fuel fs2 h1 (buf.drop k)

/-- Modelled from the spec: write_all of a whole buffer at the cursor. -/
def writeAll (v : FatType) (fs : FsState) (h : FileHandle) (buf : List Nat) :
    Except (Error Unit) (FsState × FileHandle) :=
  writeAllAux v buf.length fs h buf

/-- Clusters needed to hold n bytes: ceil(n / cs). -/
def clustersFor (cs n : Nat) : Nat := (n + cs - 1) / cs

/-- Modelled from the spec: truncate() — size becomes the current position;
the suffix of the cluster chain past that position is freed, each freed
cluster's FAT entry written 0, and the remaining tail (when something was
freed behind one) marked end-of-chain. -/
def truncate (v : FatType) (fs : FsState) (h : FileHandle) :
    FsState × FileHandle :=
  let keep := clustersFor fs.cluster_size h.pos
  let kept := h.chain.take keep
  let freed := h.chain.drop keep
  let fat1 := freed.foldl (fun f c => f.set c 0) fs.fat
  let fat2 :=
    if freed.isEmpty then fat1
    else
      match kept.getLast? with
      | some tail => fat1.set tail (eocMin v)
      | none => fat1
  ({ fs with fat := fat2 },
   { h with chain := kept, size := h.pos, dirty := true })

/-- Well-formed volume state: a nonzero cluster size, data region and FAT of
the same cluster count, every in-range cluster holding exactly cluster_size
bytes. -/
def WfFs (fs : FsState) : Prop :=
  0 < fs.cluster_size ∧ fs.data.length = fs.fat.length ∧
  ∀ i < fs.data.length, (fs.data.getD i []).length = fs.cluster_size

/-- Well-formed handle over a volume: distinct chain clusters, each a valid
allocated data cluster, the size within the chain's capacity and the chain
holding no cluster past the size. -/
def WfHandle (fs : FsState) (h : FileHandle) : Prop :=
  h.chain.Nodup ∧
  (∀ c ∈ h.chain, 2 ≤ c ∧ c < fs.fat.length ∧ fatGet fs c ≠ 0) ∧
  h.size ≤ h.chain.length * fs.cluster_size ∧
  h.chain.length * fs.cluster_size < h.size + fs.cluster_size

instance (fs : FsState) : Decidable (WfFs fs) := by
  unfold WfFs; infer_instance

instance (fs : FsState) (h : FileHandle) : Decidable (WfHandle fs h) := by
  unfold WfHandle; infer_instance

/-- Example geometry: 512-byte sectors, 1 sector per cluster, 1000 data
clusters. -/
def bpbSmall : Bpb :=
  { bytes_per_sector := 512, sectors_per_cluster := 1, reserved_sectors := 1,
    fats := 2, root_entries := 512, total_sectors := 1053,
    sectors_per_fat := 10 }

/-- Sample parent directory for the C6 witness. -/
def parentC6 : List DirEntry :=
  [{ name := "very-long-dir", deleted := false, first_cluster := 5, size := 0,
     is_dir := true }]

/-- Sample contents for the C6 witness: the dot entries and one live file. -/
def subC6 : List DirEntry :=
  [{ name := ".", deleted := false, first_cluster := 5, size := 0, is_dir := true },
   { name := "..", deleted := false, first_cluster := 0, size := 0, is_dir := true },
   { name := "nested.txt", deleted := false, first_cluster := 7, size := 11,
     is_dir := false }]

/-- Sample volume for the C4 witness: one file of 3 bytes in cluster 2. -/
def fsReadW : FsState :=
  { cluster_size := 4, fat := [0, 0, 0xFFF8], data := [[0, 0, 0, 0], [0, 0, 0, 0], [1, 2, 3, 4]] }

/-- Sample handle for the C4 witness, seeked far past end-of-file. -/
def hReadW : FileHandle := { chain := [2], size := 3, pos := 1000, dirty := false }

/-- Fresh volume with free clusters, for the C1 and C2 witnesses. -/
def fsFresh : FsState :=
  { cluster_size := 4, fat := [0, 0, 0, 0],
    data := [[9, 9, 9, 9], [9, 9, 9, 9], [9, 9, 9, 9], [9, 9, 9, 9]] }

/-- Handle of a freshly created, empty file. -/
def hFresh : FileHandle := { chain := [], size := 0, pos := 0, dirty := false }

/-- Volume state after writing five bytes to the fresh file. -/
def fsFreshAfter : FsState :=
  { cluster_size := 4, fat := [0, 0, 3, 65528],
    data := [[9, 9, 9, 9], [9, 9, 9, 9], [10, 11, 12, 13], [14, 9, 9, 9]] }

/-- Handle state after writing five bytes to the fresh file. -/
def hFreshAfter : FileHandle :=
  { chain := [2, 3], size := 5, pos := 5, dirty := true }

/-- A volume already holding a one-byte file, for the C1 counterexample. -/
def fsPre : FsState :=
  { cluster_size := 2, fat := [0, 0, 0xFFF8], data := [[0, 0], [0, 0], [7, 9]] }

/-- Handle of the pre-existing one-byte file, cursor at position 0. -/
def hPre : FileHandle := { chain := [2], size := 1, pos := 0, dirty := false }

/-- Handle for the truncate witness: the five-byte file seeked to 3. -/
def hTrunc : FileHandle := { chain := [2, 3], size := 5, pos := 3, dirty := true }

/-- C7: the public error type is a tagged enum with exactly the variants
`Io(inner)`, `UnexpectedEof`, `WriteZero`, `InvalidInput`, `NotFound`,
`AlreadyExists`, `DirectoryIsNotEmpty`, `CorruptedFileSystem`,
`NotEnoughSpace`, `InvalidFileNameLength`, `UnsupportedFileNameCharacter`:
every value is one of these eleven forms, and `Io` wraps the caller's store
error value injectively. -/
theorem c7_error_enum_variants (T : Type) (e : Error T) :
    ((∃ t, e = Error.Io t) ∨ e = Error.UnexpectedEof ∨ e = Error.WriteZero ∨
      e = Error.InvalidInput ∨ e = Error.NotFound ∨ e = Error.AlreadyExists ∨
      e = Error.DirectoryIsNotEmpty ∨ e = Error.CorruptedFileSystem ∨
      e = Error.NotEnoughSpace ∨ e = Error.InvalidFileNameLength ∨
      e = Error.UnsupportedFileNameCharacter) ∧
    (∀ t t' : T, (Error.Io t : Error T) = Error.Io t' → t = t') := by
  constructor
  · cases e
    · exact Or.inl ⟨_, rfl⟩
    all_goals simp
  · intro t t' h
    exact Error.Io.inj h

/-- C8: `is_interrupted` on `Error<T>` answers `true` exactly when the value
is the `Io` variant wrapping an inner store error whose own `is_interrupted`
is `true`; every non-`Io` variant answers `false`. -/
theorem c8_is_interrupted_iff (T : Type) (inst : IoErrorTrait T) (e : Error T) :
    (errorIoError T inst).is_interrupted e = true ↔
      ∃ t, e = Error.Io t ∧ inst.is_interrupted t = true := by
  cases e <;> simp [errorIoError]

/-- C10: converting `Error<std::io::Error>` into `std::io::Error` returns the
wrapped store error itself for the `Io` variant, and maps `NotEnoughSpace` to
`ErrorKind::UnexpectedEof`, the same kind as the `UnexpectedEof` variant, so
the two are indistinguishable by kind after conversion. -/
theorem c10_into_std_io_error (e : StdIoError) :
    errorIntoStdIoError (Error.Io e) = e ∧
    (errorIntoStdIoError (Error.NotEnoughSpace : Error StdIoError)).kind =
      ErrorKind.UnexpectedEof ∧
    (errorIntoStdIoError (Error.UnexpectedEof : Error StdIoError)).kind =
      ErrorKind.UnexpectedEof ∧
    (errorIntoStdIoError (Error.NotEnoughSpace : Error StdIoError)).kind =
      (errorIntoStdIoError (Error.UnexpectedEof : Error StdIoError)).kind := by
  exact ⟨rfl, rfl, rfl, rfl⟩

/-- C9: for every geometry accepted by BPB validation, mount classifies the
volume as FAT12 exactly when the data-cluster count N is below 4085, as
FAT16 exactly when 4085 ≤ N < 65525, and as FAT32 otherwise. -/
theorem c9_variant_classification (b : Bpb) (hb : validBpb b) :
    (classifyVariant b = FatType.Fat12 ↔ dataClusters b < 4085) ∧
    (classifyVariant b = FatType.Fat16 ↔
      4085 ≤ dataClusters b ∧ dataClusters b < 65525) ∧
    (classifyVariant b = FatType.Fat32 ↔ 65525 ≤ dataClusters b) := by
  clear hb
  unfold classifyVariant
  split_ifs with h1 h2 <;> refine ⟨?_, ?_, ?_⟩ <;> simp <;> omega

/-- Witness for C9: the sample geometry passes validation and is classified
FAT12, its 1000 data clusters being below 4085. -/
theorem c9_variant_classification_witness :
    classifyVariant bpbSmall = FatType.Fat12 ↔ dataClusters bpbSmall < 4085 :=
  (c9_variant_classification bpbSmall (by decide)).1

/-- C5: name validation rejects the empty name with `InvalidFileNameLength`
rather than aborting, and — the validator being a total function — every
input yields either success or one of the two named name errors; no
malformed name escapes to a panic. -/
theorem c5_empty_name_rejected :
    validateName [] = Except.error Error.InvalidFileNameLength ∧
    ∀ name : List Nat,
      validateName name = Except.ok () ∨
      validateName name = Except.error Error.InvalidFileNameLength ∨
      validateName name = Except.error Error.UnsupportedFileNameCharacter := by
  refine ⟨rfl, fun name => ?_⟩
  unfold validateName
  split
  · exact Or.inr (Or.inl rfl)
  · split
    · exact Or.inr (Or.inr rfl)
    · exact Or.inl rfl

/-- C6: removing a directory that still holds a live entry other than `.`
and `..` fails with `DirectoryIsNotEmpty` (the failing call returns no new
state, so the directory and its contents are unchanged); once every such
entry is deleted, the remove succeeds. -/
theorem c6_remove_directory (parent sub : List DirEntry) (n : String)
    (hn : (dirLookup parent n).isSome = true) :
    ((∃ e ∈ sub, e.deleted = false ∧ dotName e.name = false) →
      removeDir parent sub n = Except.error Error.DirectoryIsNotEmpty) ∧
    ((∀ e ∈ sub, e.deleted = false → dotName e.name = true) →
      removeDir parent sub n = Except.ok (markDeleted parent n)) := by
  obtain ⟨e0, he0⟩ := Option.isSome_iff_exists.mp hn
  unfold removeDir
  rw [he0]
  constructor
  · rintro ⟨e, hmem, hdel, hdot⟩
    have hne : dirIsEmpty sub = false := by
      unfold dirIsEmpty
      rw [List.all_eq_false]
      exact ⟨e, hmem, by rw [hdel, hdot]; decide⟩
    rw [hne]
    rfl
  · intro hall
    have hyes : dirIsEmpty sub = true := by
      unfold dirIsEmpty
      rw [List.all_eq_true]
      intro e he
      cases hd : e.deleted with
      | true => rfl
      | false => rw [hall e he hd]; rfl
    rw [hyes]
    rfl

/-- Witness for C6: with `nested.txt` live the remove fails
`DirectoryIsNotEmpty`; with every non-dot entry deleted it succeeds. -/
theorem c6_remove_directory_witness :
    removeDir parentC6 subC6 "very-long-dir" =
      Except.error Error.DirectoryIsNotEmpty ∧
    removeDir parentC6 (markDeleted subC6 "nested.txt") "very-long-dir" =
      Except.ok (markDeleted parentC6 "very-long-dir") := by
  constructor
  · exact (c6_remove_directory parentC6 subC6 "very-long-dir" (by decide)).1
      ⟨{ name := "nested.txt", deleted := false, first_cluster := 7, size := 11,
         is_dir := false }, by decide, rfl, rfl⟩
  · exact (c6_remove_directory parentC6 (markDeleted subC6 "nested.txt")
      "very-long-dir" (by decide)).2 (by decide)

/-- Reading an updated index back from a list. -/
theorem getD_set_self {α : Type} (l : List α) (i : Nat) (x d : α)
    (h : i < l.length) : (l.set i x).getD i d = x := by
  rw [List.getD_eq_getElem?_getD, List.getElem?_set_self (by simpa using h)]
  rfl

/-- Reading an untouched index back from a list. -/
theorem getD_set_ne {α : Type} (l : List α) (i j : Nat) (x d : α)
    (h : i ≠ j) : (l.set i x).getD j d = l.getD j d := by
  rw [List.getD_eq_getElem?_getD, List.getElem?_set_ne h,
    List.getD_eq_getElem?_getD]

/-- Marking a name deleted removes it from lookup. -/
theorem dirLookup_markDeleted_self (d : List DirEntry) (a : String) :
    dirLookup (markDeleted d a) a = none := by
  unfold dirLookup markDeleted
  rw [List.find?_eq_none]
  intro x hx
  rw [List.mem_map] at hx
  obtain ⟨y, hy, rfl⟩ := hx
  by_cases hc : (!y.deleted && y.name == a) = true
  · rw [if_pos hc]
    simp
  · rw [if_neg hc]
    exact fun h => hc h

/-- Marking one name deleted cannot make another name appear. -/
theorem dirLookup_markDeleted_none (d : List DirEntry) (a b : String)
    (h : dirLookup d b = none) : dirLookup (markDeleted d a) b = none := by
  unfold dirLookup markDeleted
  rw [List.find?_eq_none]
  intro x hx
  rw [List.mem_map] at hx
  obtain ⟨y, hy, rfl⟩ := hx
  have hyb := List.find?_eq_none.mp h y hy
  by_cases hc : (!y.deleted && y.name == a) = true
  · rw [if_pos hc]
    simp
  · rw [if_neg hc]
    exact hyb

/-- Lookup distributes over directory concatenation. -/
theorem dirLookup_append (d1 d2 : List DirEntry) (n : String) :
    dirLookup (d1 ++ d2) n = (dirLookup d1 n).or (dirLookup d2 n) := by
  unfold dirLookup
  exact List.find?_append

/-- Lookup in a one-entry directory hits a live entry of that name. -/
theorem dirLookup_single_hit (e : DirEntry) (n : String)
    (hdel : e.deleted = false) (hn : (e.name == n) = true) :
    dirLookup [e] n = some e := by
  unfold dirLookup
  simp [List.find?, hdel, hn]

/-- Lookup in a one-entry directory misses any other name. -/
theorem dirLookup_single_miss (e : DirEntry) (n : String)
    (hn : (e.name == n) = false) :
    dirLookup [e] n = none := by
  unfold dirLookup
  simp [List.find?, hn]

/-- C3: when rename(a, b) succeeds, opening `a` in the source directory fails
`NotFound`, opening `b` in the destination succeeds, and the entry found
preserves the stored first cluster and size, so it reads back exactly the
content `a` had; the source and destination directory may be the same or
different. -/
theorem c3_rename_moves_entry (dirs : List (List DirEntry)) (src dst : Nat)
    (a b : String) (e : DirEntry) (dirs' : List (List DirEntry))
    (hsrc : src < dirs.length) (hdst : dst < dirs.length)
    (hlook : dirLookup (dirs.getD src []) a = some e)
    (hok : rename dirs src dst a b = Except.ok dirs') :
    openEntry (dirs'.getD src []) a = Except.error Error.NotFound ∧
    ∃ e', openEntry (dirs'.getD dst []) b = Except.ok e' ∧
      e'.first_cluster = e.first_cluster ∧ e'.size = e.size ∧
      ∀ (v : FatType) (fs : FsState), entryBytes v fs e' = entryBytes v fs e := by
  unfold rename at hok
  rw [hlook] at hok
  dsimp only at hok
  by_cases hfresh : (dirLookup (dirs.getD dst []) b).isSome = true
  · rw [if_pos hfresh] at hok
    exact absurd hok (by simp)
  rw [if_neg hfresh] at hok
  have hfresh' : dirLookup (dirs.getD dst []) b = none :=
    Option.not_isSome_iff_eq_none.mp hfresh
  injection hok with hok
  subst hok
  have hab : src = dst → (b == a) = false := by
    intro hsd
    refine beq_eq_false_iff_ne.mpr (fun heq => ?_)
    rw [hsd] at hlook
    rw [heq, hlook] at hfresh'
    exact Option.noConfusion hfresh'
  have hlen1 : (dirs.set src (markDeleted (dirs.getD src []) a)).length =
      dirs.length := List.length_set dirs src _
  constructor
  · by_cases hsd : src = dst
    · subst hsd
      rw [getD_set_self _ _ _ _ (hlen1 ▸ hdst), getD_set_self _ _ _ _ hsrc]
      unfold openEntry
      rw [dirLookup_append, dirLookup_markDeleted_self,
        dirLookup_single_miss _ _ (hab rfl)]
      rfl
    · rw [getD_set_ne _ _ _ _ _ (fun h => hsd h.symm),
        getD_set_self _ _ _ _ hsrc]
      unfold openEntry
      rw [dirLookup_markDeleted_self]
  · refine ⟨{ e with name := b, deleted := false }, ?_, rfl, rfl, fun v fs => rfl⟩
    rw [getD_set_self _ _ _ _ (hlen1 ▸ hdst)]
    have hd1 : dirLookup
        ((dirs.set src (markDeleted (dirs.getD src []) a)).getD dst []) b =
        none := by
      by_cases hsd : src = dst
      · subst hsd
        rw [getD_set_self _ _ _ _ hsrc]
        exact dirLookup_markDeleted_none _ _ _ hfresh'
      · rw [getD_set_ne _ _ _ _ _ hsd]
        exact hfresh'
    unfold openEntry
    rw [dirLookup_append, hd1,
      dirLookup_single_hit { e with name := b, deleted := false } b rfl
        (by simp)]
    rfl

/-- Sample volume directories for the C3 witness: the root holds the file,
the target directory is empty. -/
def dirsC3 : List (List DirEntry) :=
  [[{ name := "test_rename.txt", deleted := false, first_cluster := 9,
      size := 21, is_dir := false }],
   [{ name := ".", deleted := false, first_cluster := 3, size := 0, is_dir := true },
    { name := "..", deleted := false, first_cluster := 0, size := 0, is_dir := true }]]

/-- Witness for C3: renaming `test_rename.txt` from the root into the target
directory as `renamed.txt` makes the source lookup fail `NotFound` and the
destination lookup find an entry with the original first cluster and size. -/
theorem c3_rename_moves_entry_witness :
    ∃ dirs', rename dirsC3 0 1 "test_rename.txt" "renamed.txt" =
        Except.ok dirs' ∧
      openEntry (dirs'.getD 0 []) "test_rename.txt" =
        Except.error Error.NotFound ∧
      ∃ e', openEntry (dirs'.getD 1 []) "renamed.txt" = Except.ok e' ∧
        e'.first_cluster = 9 ∧ e'.size = 21 := by
  obtain ⟨dirs', hok⟩ : ∃ d, rename dirsC3 0 1 "test_rename.txt" "renamed.txt" =
      Except.ok d := ⟨_, rfl⟩
  have h := c3_rename_moves_entry dirsC3 0 1 "test_rename.txt" "renamed.txt"
    { name := "test_rename.txt", deleted := false, first_cluster := 9,
      size := 21, is_dir := false } dirs'
    (by decide) (by decide) (by decide) hok
  obtain ⟨h1, e', h2, h3, h4, _⟩ := h
  exact ⟨dirs', hok, h1, e', h2, h3, h4⟩

/-- Cluster data has cluster_size bytes on a well-formed volume. -/
theorem clusterData_length (fs : FsState) (hwf : WfFs fs) (c : Nat)
    (hc : c < fs.fat.length) : (clusterData fs c).length = fs.cluster_size := by
  obtain ⟨-, hlen, hall⟩ := hwf
  exact hall c (by omega)

/-- Chain bytes of the empty chain. -/
theorem chainBytes_nil (fs : FsState) : chainBytes fs [] = [] := rfl

/-- Chain bytes of a cons chain. -/
theorem chainBytes_cons (fs : FsState) (c : Nat) (rest : List Nat) :
    chainBytes fs (c :: rest) = clusterData fs c ++ chainBytes fs rest := rfl

/-- Chain bytes distribute over appended chains. -/
theorem chainBytes_append (fs : FsState) (l1 l2 : List Nat) :
    chainBytes fs (l1 ++ l2) = chainBytes fs l1 ++ chainBytes fs l2 := by
  unfold chainBytes
  rw [List.map_append, List.flatten_append]

/-- Length of chain bytes when every cluster holds cluster_size bytes. -/
theorem chainBytes_length (fs : FsState) (chain : List Nat)
    (hlen : ∀ c ∈ chain, (clusterData fs c).length = fs.cluster_size) :
    (chainBytes fs chain).length = chain.length * fs.cluster_size := by
  induction chain with
  | nil => simp [chainBytes]
  | cons c rest ih =>
    rw [chainBytes_cons, List.length_append, hlen c (List.mem_cons_self c rest),
      ih (fun x hx => hlen x (List.mem_cons_of_mem c hx)), List.length_cons]
    ring

/-- Chain bytes only read the data region. -/
theorem chainBytes_congr (fs fs' : FsState) (hdata : fs'.data = fs.data)
    (chain : List Nat) : chainBytes fs' chain = chainBytes fs chain := by
  unfold chainBytes clusterData
  rw [hdata]

/-- Reading back a rewritten cluster. -/
theorem clusterData_set_self (fs : FsState) (c : Nat) (b : List Nat)
    (hc : c < fs.data.length) :
    clusterData { fs with data := fs.data.set c b } c = b := by
  unfold clusterData
  exact getD_set_self _ _ _ _ hc

/-- Reading an untouched cluster after a rewrite. -/
theorem clusterData_set_ne (fs : FsState) (c c' : Nat) (b : List Nat)
    (h : c ≠ c') :
    clusterData { fs with data := fs.data.set c b } c' = clusterData fs c' := by
  unfold clusterData
  exact getD_set_ne _ _ _ _ _ h

/-- Rewriting a cluster outside a chain leaves the chain's bytes unchanged. -/
theorem chainBytes_set_not_mem (fs : FsState) (chain : List Nat) (c : Nat)
    (b : List Nat) (hc : c ∉ chain) :
    chainBytes { fs with data := fs.data.set c b } chain =
      chainBytes fs chain := by
  induction chain with
  | nil => rfl
  | cons d rest ih =>
    rw [chainBytes_cons, chainBytes_cons,
      clusterData_set_ne fs c d b (fun h => hc (h ▸ List.mem_cons_self d rest)),
      ih (fun h => hc (List.mem_cons_of_mem d h))]

/-- A read that stays within one cluster agrees with reading the concatenated
chain bytes at the same absolute position. -/
theorem chainBytes_drop_take_block (fs : FsState) (chain : List Nat)
    (pos n : Nat)
    (hlen : ∀ c ∈ chain, (clusterData fs c).length = fs.cluster_size)
    (hcs : 0 < fs.cluster_size)
    (hi : pos / fs.cluster_size < chain.length)
    (hn : n ≤ fs.cluster_size - pos % fs.cluster_size) :
    ((chainBytes fs chain).drop pos).take n =
      ((clusterData fs (chain.getD (pos / fs.cluster_size) 0)).drop
        (pos % fs.cluster_size)).take n := by
  induction chain generalizing pos with
  | nil => simp at hi
  | cons d rest ih =>
    have hd : (clusterData fs d).length = fs.cluster_size :=
      hlen d (List.mem_cons_self d rest)
    by_cases hp : pos < fs.cluster_size
    · have h0 : pos / fs.cluster_size = 0 := Nat.div_eq_of_lt hp
      have hm : pos % fs.cluster_size = pos := Nat.mod_eq_of_lt hp
      rw [h0, hm, List.getD_cons_zero, chainBytes_cons,
        List.drop_append_eq_append_drop]
      have hrest : pos - (clusterData fs d).length = 0 := by omega
      rw [hrest, List.drop_zero, List.take_append_eq_append_take]
      have hz : n - ((clusterData fs d).drop pos).length = 0 := by
        rw [List.length_drop]
        omega
      rw [hz, List.take_zero, List.append_nil]
    · have hp' : fs.cluster_size ≤ pos := le_of_not_lt hp
      have hpos : pos = (pos - fs.cluster_size) + fs.cluster_size := by omega
      have hdiv : pos / fs.cluster_size =
          (pos - fs.cluster_size) / fs.cluster_size + 1 := by
        conv_lhs => rw [hpos]
        rw [Nat.add_div_right _ hcs]
      have hmod : pos % fs.cluster_size =
          (pos - fs.cluster_size) % fs.cluster_size := by
        conv_lhs => rw [hpos]
        rw [Nat.add_mod_right]
      rw [chainBytes_cons, List.drop_append_eq_append_drop,
        List.drop_eq_nil_of_le (by omega), List.nil_append, hd, hdiv,
        List.getD_cons_succ, hmod]
      refine ih (pos - fs.cluster_size)
        (fun c hc => hlen c (List.mem_cons_of_mem d hc)) ?_ ?_
      · have h2 : (pos - fs.cluster_size) / fs.cluster_size + 1 <
            rest.length + 1 := by
          rw [← hdiv]
          simpa using hi
        exact Nat.lt_of_succ_lt_succ h2
      · rw [← hmod]
        exact hn

/-- read_to_end returns the file content from the cursor to the size. -/
theorem readToEndAux_eq (fs : FsState) (fuel : Nat) : ∀ (h : FileHandle),
    WfFs fs → (∀ c ∈ h.chain, c < fs.fat.length) →
    h.size ≤ h.chain.length * fs.cluster_size →
    h.size - h.pos < fuel →
    readToEndAux fs fuel h =
      ((chainBytes fs h.chain).take h.size).drop h.pos := by
  induction fuel with
  | zero => exact fun h _ _ _ hfuel => absurd hfuel (by omega)
  | succ fuel ih =>
    intro h hwf hmem hcap hfuel
    have hcs : 0 < fs.cluster_size := hwf.1
    have hlen : ∀ c ∈ h.chain, (clusterData fs c).length = fs.cluster_size :=
      fun c hc => clusterData_length fs hwf c (hmem c hc)
    have hcblen : (chainBytes fs h.chain).length =
        h.chain.length * fs.cluster_size := chainBytes_length fs h.chain hlen
    by_cases hend : h.size ≤ h.pos
    · have hn0 : min (min (fs.cluster_size - h.pos % fs.cluster_size)
          (h.size - h.pos)) (h.size - h.pos) = 0 := by omega
      have hdropnil : List.drop h.pos (List.take h.size (chainBytes fs h.chain)) = [] := by
        rw [List.drop_eq_nil_iff, List.length_take]
        omega
      rw [hdropnil]
      simp only [readToEndAux, readStep, hn0, List.take_zero, List.length_nil,
        if_true]
    · have hmin : min (min (fs.cluster_size - h.pos % fs.cluster_size)
          (h.size - h.pos)) (h.size - h.pos) =
          min (fs.cluster_size - h.pos % fs.cluster_size) (h.size - h.pos) := by
        omega
      have hmodlt : h.pos % fs.cluster_size < fs.cluster_size :=
        Nat.mod_lt _ hcs
      have hn1 : 1 ≤ min (fs.cluster_size - h.pos % fs.cluster_size)
          (h.size - h.pos) := by omega
      have hi : h.pos / fs.cluster_size < h.chain.length := by
        rw [Nat.div_lt_iff_lt_mul hcs]
        omega
      have hmemi : h.chain.getD (h.pos / fs.cluster_size) 0 ∈ h.chain := by
        rw [List.getD_eq_getElem _ _ hi]
        exact List.getElem_mem _
      have hcd : (clusterData fs
          (h.chain.getD (h.pos / fs.cluster_size) 0)).length =
          fs.cluster_size := hlen _ hmemi
      have hblock := chainBytes_drop_take_block fs h.chain h.pos
        (min (fs.cluster_size - h.pos % fs.cluster_size) (h.size - h.pos))
        hlen hcs hi (by omega)
      have hlength : (((clusterData fs
          (h.chain.getD (h.pos / fs.cluster_size) 0)).drop
            (h.pos % fs.cluster_size)).take
          (min (fs.cluster_size - h.pos % fs.cluster_size)
            (h.size - h.pos))).length =
          min (fs.cluster_size - h.pos % fs.cluster_size) (h.size - h.pos) := by
        rw [List.length_take, List.length_drop, hcd]
        omega
      simp only [readToEndAux, readStep, hmin]
      rw [hlength, if_neg (by omega), ← hblock]
      have hih := ih { h with pos := h.pos + min (fs.cluster_size - h.pos % fs.cluster_size) (h.size - h.pos) } hwf hmem hcap (by simp only []; omega)
      simp only at hih
      rw [hih]
      have hsplit : h.size - h.pos =
          min (fs.cluster_size - h.pos % fs.cluster_size) (h.size - h.pos) +
          (h.size - (h.pos +
            min (fs.cluster_size - h.pos % fs.cluster_size)
              (h.size - h.pos))) := by omega
      rw [List.drop_take, List.drop_take, ← List.drop_drop]
      conv_rhs => rw [hsplit, List.take_add]

/-- C4: a positioned read returns min(remaining-in-cluster,
remaining-in-file, buffer length) bytes; in particular a read at or past the
size returns zero bytes, reads being capped at the size. -/
theorem c4_read_returns_min (fs : FsState) (h : FileHandle) (bufLen : Nat)
    (hwf : WfFs fs) (hmem : ∀ c ∈ h.chain, c < fs.fat.length)
    (hcap : h.size ≤ h.chain.length * fs.cluster_size) :
    (readStep fs h bufLen).1.length =
      min (min (fs.cluster_size - h.pos % fs.cluster_size) (h.size - h.pos))
        bufLen ∧
    (h.size ≤ h.pos → (readStep fs h bufLen).1 = []) := by
  have hcs : 0 < fs.cluster_size := hwf.1
  constructor
  · simp only [readStep, List.length_take, List.length_drop]
    by_cases hend : h.size ≤ h.pos
    · omega
    · have hi : h.pos / fs.cluster_size < h.chain.length := by
        rw [Nat.div_lt_iff_lt_mul hcs]
        omega
      have hmemi : h.chain.getD (h.pos / fs.cluster_size) 0 ∈ h.chain := by
        rw [List.getD_eq_getElem _ _ hi]
        exact List.getElem_mem _
      have hcd : (clusterData fs
          (h.chain.getD (h.pos / fs.cluster_size) 0)).length =
          fs.cluster_size := clusterData_length fs hwf _ (hmem _ hmemi)
      rw [hcd]
      have := Nat.mod_lt h.pos hcs
      omega
  · intro hend
    simp only [readStep]
    have hn0 : min (min (fs.cluster_size - h.pos % fs.cluster_size)
        (h.size - h.pos)) bufLen = 0 := by omega
    rw [hn0, List.take_zero]

/-- Witness for C4: on the sample volume, a 10-byte read at position 1000 of
a 3-byte file returns min(min(4 - 0, 0), 10) = 0 bytes. -/
theorem c4_read_returns_min_witness :
    (readStep fsReadW hReadW 10).1.length =
      min (min (fsReadW.cluster_size - hReadW.pos % fsReadW.cluster_size)
        (hReadW.size - hReadW.pos)) 10 ∧
    (hReadW.size ≤ hReadW.pos → (readStep fsReadW hReadW 10).1 = []) :=
  c4_read_returns_min fsReadW hReadW 10 (by decide) (by decide) (by decide)

/-- A successful find_free with hint 2 returns a free, in-range cluster. -/
theorem findFree_ok (fat : List Nat) (c : Nat)
    (hok : findFree fat 2 = Except.ok c) :
    2 ≤ c ∧ c < fat.length ∧ fat.getD c 0 = 0 := by
  unfold findFree at hok
  cases h1 : findFreeIn fat 2 (fat.length - 2) with
  | none =>
    rw [h1] at hok
    rw [show findFreeIn fat 2 (2 - 2) = none from rfl] at hok
    exact absurd hok (by simp)
  | some c1 =>
    rw [h1] at hok
    injection hok with hok
    subst hok
    unfold findFreeIn at h1
    have hp := List.find?_some h1
    have hm := List.mem_of_find?_eq_some h1
    rw [List.mem_range'] at hm
    obtain ⟨i, hi, rfl⟩ := hm
    have hlt : 2 + 1 * i < fat.length := by omega
    refine ⟨by omega, hlt, ?_⟩
    have hp' : fat.getD (2 + 1 * i) 1 = 0 := by simpa using hp
    rw [List.getD_eq_getElem _ _ hlt] at hp' ⊢
    exact hp'

/-- The tail returned by getLast? is a member of the chain. -/
theorem getLast?_some_mem (l : List Nat) (a : Nat)
    (h : l.getLast? = some a) : a ∈ l := by
  cases l with
  | nil => exact absurd h (by simp)
  | cons x xs =>
    rw [List.getLast?_eq_getLast (x :: xs) (by simp)] at h
    injection h with h
    rw [← h]
    exact List.getLast_mem _

/-- A successful extend_chain appends one fresh free cluster and keeps every
chain entry allocated, the data region untouched. -/
theorem extendChain_ok (v : FatType) (fs : FsState) (chain : List Nat)
    (fs1 : FsState) (chain1 : List Nat)
    (hinv : ∀ x ∈ chain, 2 ≤ x ∧ x < fs.fat.length ∧ fatGet fs x ≠ 0)
    (hok : extendChain v fs chain = Except.ok (fs1, chain1)) :
    ∃ c, chain1 = chain ++ [c] ∧ 2 ≤ c ∧ c < fs.fat.length ∧ c ∉ chain ∧
      fs1.cluster_size = fs.cluster_size ∧ fs1.data = fs.data ∧
      fs1.fat.length = fs.fat.length ∧
      (∀ x ∈ chain1, 2 ≤ x ∧ x < fs1.fat.length ∧ fatGet fs1 x ≠ 0) := by
  unfold extendChain at hok
  cases hf : findFree fs.fat 2 with
  | error e =>
    rw [hf] at hok
    exact absurd hok (by simp)
  | ok c =>
    rw [hf] at hok
    dsimp only at hok
    obtain ⟨hc2, hclen, hcfree⟩ := findFree_ok fs.fat c hf
    have hcnot : c ∉ chain := fun hmem => (hinv c hmem).2.2 hcfree
    have heoc : eocMin v ≠ 0 := by cases v <;> decide
    injection hok with hok
    injection hok with hfs hch
    refine ⟨c, hch.symm, hc2, hclen, hcnot, ?_⟩
    subst hfs
    subst hch
    cases hlast : chain.getLast? with
    | none =>
      have hnil : chain = [] := List.getLast?_eq_none_iff.mp hlast
      subst hnil
      dsimp only
      refine ⟨rfl, rfl, List.length_set _ _ _, ?_⟩
      intro x hx
      rw [List.nil_append, List.mem_singleton] at hx
      subst hx
      refine ⟨hc2, by rw [List.length_set]; exact hclen, ?_⟩
      unfold fatGet
      rw [getD_set_self _ _ _ _ hclen]
      exact heoc
    | some tail =>
      have htmem : tail ∈ chain := getLast?_some_mem chain tail hlast
      have htne : tail ≠ c := fun h => hcnot (h ▸ htmem)
      dsimp only
      refine ⟨rfl, rfl, by rw [List.length_set, List.length_set], ?_⟩
      intro x hx
      rw [List.mem_append, List.mem_singleton] at hx
      have hflen : ((fs.fat.set c (eocMin v)).set tail c).length =
          fs.fat.length := by rw [List.length_set, List.length_set]
      cases hx with
      | inl hxc =>
        obtain ⟨hx2, hxlen, hxne⟩ := hinv x hxc
        refine ⟨hx2, by rw [hflen]; exact hxlen, ?_⟩
        unfold fatGet
        by_cases hxt : x = tail
        · subst hxt
          rw [getD_set_self _ _ _ _ (by rw [List.length_set]; exact (hinv x hxc).2.1)]
          omega
        · rw [getD_set_ne _ _ _ _ _ (fun h => hxt h.symm),
            getD_set_ne _ _ _ _ _ (fun h => hcnot (by rw [h]; exact hxc))]
          exact hxne
      | inr hxc =>
        subst hxc
        refine ⟨hc2, by rw [hflen]; exact hclen, ?_⟩
        unfold fatGet
        rw [getD_set_ne _ _ _ _ _ htne,
          getD_set_self _ _ _ _ hclen]
        exact heoc

/-- ensureCover is the identity once the chain already covers index i. -/
theorem ensureCover_done (v : FatType) (fuel : Nat) (fs : FsState)
    (chain : List Nat) (i : Nat) (hlt : i < chain.length) :
    ensureCover v fuel fs chain i = Except.ok (fs, chain) := by
  cases fuel <;> simp [ensureCover, hlt]

/-- A successful ensureCover extends the chain by at most one fresh cluster
when the cursor sits at the chain's end, preserving the invariant. -/
theorem ensureCover_ok (v : FatType) (fuel : Nat) (fs : FsState)
    (chain : List Nat) (i : Nat) (fs1 : FsState) (chain1 : List Nat)
    (hinv : ∀ x ∈ chain, 2 ≤ x ∧ x < fs.fat.length ∧ fatGet fs x ≠ 0)
    (hnd : chain.Nodup)
    (hi : i ≤ chain.length)
    (hok : ensureCover v fuel fs chain i = Except.ok (fs1, chain1)) :
    fs1.cluster_size = fs.cluster_size ∧ fs1.data = fs.data ∧
    fs1.fat.length = fs.fat.length ∧
    ((i < chain.length ∧ chain1 = chain) ∨
      (i = chain.length ∧ ∃ c, chain1 = chain ++ [c] ∧ c ∉ chain)) ∧
    i < chain1.length ∧ chain1.Nodup ∧
    (∀ x ∈ chain1, 2 ≤ x ∧ x < fs1.fat.length ∧ fatGet fs1 x ≠ 0) := by
  by_cases hlt : i < chain.length
  · rw [ensureCover_done v fuel fs chain i hlt] at hok
    injection hok with hok
    injection hok with hfs hch
    subst hfs
    subst hch
    exact ⟨rfl, rfl, rfl, Or.inl ⟨hlt, rfl⟩, hlt, hnd, hinv⟩
  · have hieq : i = chain.length := by omega
    cases fuel with
    | zero =>
      rw [show ensureCover v 0 fs chain i = Except.error Error.CorruptedFileSystem
          from by simp [ensureCover, hlt]] at hok
      exact absurd hok (by simp)
    | succ fuel =>
      rw [show ensureCover v (fuel + 1) fs chain i =
          (match extendChain v fs chain with
          | Except.error e => Except.error e
          | Except.ok (fsE, chE) => ensureCover v fuel fsE chE i)
          from by simp [ensureCover, hlt]] at hok
      cases hext : extendChain v fs chain with
      | error e =>
        rw [hext] at hok
        exact absurd hok (by simp)
      | ok p =>
        obtain ⟨fsE, chE⟩ := p
        rw [hext] at hok
        dsimp only at hok
        obtain ⟨c, hch, hc2, hclen, hcnot, hcs, hdata, hflen, hinvE⟩ :=
          extendChain_ok v fs chain fsE chE hinv hext
        have hlen1 : i < chE.length := by
          rw [hch, List.length_append, List.length_singleton]
          omega
        rw [ensureCover_done v fuel fsE chE i hlen1] at hok
        injection hok with hok
        injection hok with hfs hch1
        subst hfs
        subst hch1
        refine ⟨hcs, hdata, hflen, Or.inr ⟨hieq, c, hch, hcnot⟩, hlen1, ?_, hinvE⟩
        rw [hch, ← List.concat_eq_append]
        exact List.Nodup.concat hcnot hnd

/-- A list of length i + 1 splits into its first i elements and its last. -/
theorem list_eq_take_append_getD (l : List Nat) (i : Nat)
    (hi : l.length = i + 1) : l = l.take i ++ [l.getD i 0] := by
  have h1 : i < l.length := by omega
  conv_lhs => rw [← List.take_append_drop i l]
  congr 1
  rw [List.drop_eq_getElem_cons h1, List.getD_eq_getElem _ _ h1,
    List.drop_eq_nil_of_le (by omega)]

/-- An append-writing loop step and its invariant: writing a whole buffer
with the cursor at the end of a well-formed file appends the buffer to the
file content, preserving well-formedness. -/
theorem writeAllAux_ok (v : FatType) (fuel : Nat) : ∀ (buf : List Nat)
    (fs : FsState) (h : FileHandle) (fs' : FsState) (h' : FileHandle),
    WfFs fs →
    h.chain.Nodup →
    (∀ x ∈ h.chain, 2 ≤ x ∧ x < fs.fat.length ∧ fatGet fs x ≠ 0) →
    h.size ≤ h.chain.length * fs.cluster_size →
    h.chain.length * fs.cluster_size < h.size + fs.cluster_size →
    h.pos = h.size →
    buf.length ≤ fuel →
    writeAllAux v fuel fs h buf = Except.ok (fs', h') →
    WfFs fs' ∧ h'.chain.Nodup ∧
    (∀ x ∈ h'.chain, 2 ≤ x ∧ x < fs'.fat.length ∧ fatGet fs' x ≠ 0) ∧
    h'.size ≤ h'.chain.length * fs'.cluster_size ∧
    h'.chain.length * fs'.cluster_size < h'.size + fs'.cluster_size ∧
    h'.pos = h'.size ∧ fs'.cluster_size = fs.cluster_size ∧
    h'.size = h.size + buf.length ∧
    (chainBytes fs' h'.chain).take h'.size =
      (chainBytes fs h.chain).take h.size ++ buf := by
  induction fuel with
  | zero =>
    intro buf fs h fs' h' hwf hnd hinv hcap hlow hpos hfuel hok
    cases buf with
    | nil =>
      rw [show writeAllAux v 0 fs h [] = Except.ok (fs, h) from rfl] at hok
      injection hok with hok
      injection hok with h1 h2
      subst h1
      subst h2
      exact ⟨hwf, hnd, hinv, hcap, hlow, hpos, rfl, by simp, by simp⟩
    | cons x xs => simp at hfuel
  | succ f ih =>
    intro buf fs h fs' h' hwf hnd hinv hcap hlow hpos hfuel hok
    cases buf with
    | nil =>
      rw [show writeAllAux v (f + 1) fs h [] = Except.ok (fs, h) from rfl] at hok
      injection hok with hok
      injection hok with h1 h2
      subst h1
      subst h2
      exact ⟨hwf, hnd, hinv, hcap, hlow, hpos, rfl, by simp, by simp⟩
    | cons b bt =>
      have hcs : 0 < fs.cluster_size := hwf.1
      have hcs0 : ¬ fs.cluster_size = 0 := by omega
      have hdlen : fs.data.length = fs.fat.length := hwf.2.1
      simp only [writeAllAux] at hok
      rw [if_neg hcs0] at hok
      set i := h.pos / fs.cluster_size with hi_def
      set off := h.pos % fs.cluster_size with hoff_def
      set k := min (fs.cluster_size - off) (b :: bt).length with hk_def
      have hile : i ≤ h.chain.length := by
        have h1 : i < h.chain.length + 1 := by
          rw [hi_def, Nat.div_lt_iff_lt_mul hcs]
          calc h.pos ≤ h.chain.length * fs.cluster_size := by
                rw [hpos]
                exact hcap
            _ < (h.chain.length + 1) * fs.cluster_size := by
                rw [Nat.succ_mul]
                exact Nat.lt_add_of_pos_right hcs
        omega
      cases hens : ensureCover v (i + 1) fs h.chain i with
      | error e =>
        rw [hens] at hok
        exact absurd hok (by simp)
      | ok p =>
        obtain ⟨fs1, chain1⟩ := p
        rw [hens] at hok
        dsimp only at hok
        obtain ⟨hcseq, hdataeq, hflen, hcase, hi1, hnd1, hinv1⟩ :=
          ensureCover_ok v (i + 1) fs h.chain i fs1 chain1 hinv hnd hile hens
        have hlen1i : chain1.length = i + 1 := by
          cases hcase with
          | inr hr =>
            obtain ⟨hieq, c0, hch, -⟩ := hr
            rw [hch, List.length_append, List.length_singleton, hieq]
          | inl hl =>
            obtain ⟨hlt, hcheq⟩ := hl
            subst hcheq
            cases hlen0 : h.chain.length with
            | zero => exact absurd hlt (by rw [hlen0]; exact Nat.not_lt_zero i)
            | succ m =>
              have hmle : m ≤ i := by
                rw [hi_def, Nat.le_div_iff_mul_le hcs]
                have h2 := hlow
                rw [hlen0, Nat.succ_mul] at h2
                rw [hpos]
                generalize hg : m * fs.cluster_size = M at h2 ⊢
                omega
              have hilt : i < m + 1 := by
                rw [← hlen0]
                exact hlt
              omega
        have hdm : fs.cluster_size * i + off = h.pos := by
          rw [hi_def, hoff_def]
          exact Nat.div_add_mod h.pos fs.cluster_size
        have hofflt : off < fs.cluster_size := by
          rw [hoff_def]
          exact Nat.mod_lt _ hcs
        have hk1 : 1 ≤ k := by
          rw [hk_def, Nat.le_min]
          exact ⟨by omega, by simp⟩
        have hkle : k ≤ (b :: bt).length := by
          rw [hk_def]
          exact min_le_right _ _
        have hkcs : k ≤ fs.cluster_size - off := by
          rw [hk_def]
          exact min_le_left _ _
        clear_value i off k
        set c := chain1.getD i 0 with hc_def
        set old := clusterData fs1 c with hold_def
        set nb := old.take off ++ (b :: bt).take k ++ old.drop (off + k) with hnb_def
        set fs2 := { fs1 with data := fs1.data.set c nb } with hfs2_def
        set h1 : FileHandle := { chain := chain1, size := max h.size (h.pos + k), pos := h.pos + k, dirty := true } with hh1_def
        have hchain_lengths : ∀ x ∈ h.chain,
            (clusterData fs x).length = fs.cluster_size := by
          intro x hx
          exact clusterData_length fs hwf x (hinv x hx).2.1
        have hfrontlen : (chain1.take i).length = i := by
          rw [List.length_take]
          omega
        have hsplit1 : chain1 = chain1.take i ++ [c] := by
          rw [hc_def]
          exact list_eq_take_append_getD chain1 i hlen1i
        have hcnotfront : c ∉ chain1.take i := by
          have h2 : (chain1.take i ++ [c]).Nodup := by
            rw [← hsplit1]
            exact hnd1
          rw [List.nodup_append] at h2
          intro hmem
          exact h2.2.2 hmem (List.mem_singleton.mpr rfl)
        have hmemc : c ∈ chain1 := by
          rw [hc_def, List.getD_eq_getElem _ _ hi1]
          exact List.getElem_mem _
        have hclt : c < fs.fat.length := by
          have h2 := (hinv1 c hmemc).2.1
          rw [hflen] at h2
          exact h2
        have holdlen : old.length = fs.cluster_size := by
          rw [hold_def]
          unfold clusterData
          rw [hdataeq]
          exact hwf.2.2 c (by omega)
        have hfront_lengths1 : ∀ x ∈ chain1.take i,
            (clusterData fs1 x).length = fs1.cluster_size := by
          intro x hx
          have hx1 : x ∈ chain1 := List.take_subset i chain1 hx
          have hxlt : x < fs.fat.length := by
            have h2 := (hinv1 x hx1).2.1
            rw [hflen] at h2
            exact h2
          unfold clusterData
          rw [hdataeq, hcseq]
          exact hwf.2.2 x (by omega)
        have hPlen : (chainBytes fs1 (chain1.take i)).length =
            i * fs.cluster_size := by
          rw [chainBytes_length fs1 _ hfront_lengths1, hfrontlen, hcseq]
        have hbase : (chainBytes fs h.chain).take h.size =
            chainBytes fs1 (chain1.take i) ++ old.take off := by
          cases hcase with
          | inl hl =>
            obtain ⟨hlt, hcheq⟩ := hl
            have hchb : chainBytes fs h.chain = chainBytes fs1 chain1 := by
              rw [hcheq]
              exact (chainBytes_congr fs fs1 hdataeq h.chain).symm
            rw [hchb]
            conv_lhs => rw [hsplit1]
            rw [chainBytes_append, chainBytes_cons, chainBytes_nil,
              List.append_nil, List.take_append_eq_append_take]
            have hPle : (chainBytes fs1 (chain1.take i)).length ≤ h.size := by
              rw [hPlen, Nat.mul_comm]
              rw [hpos] at hdm
              generalize hg : fs.cluster_size * i = M at hdm ⊢
              omega
            rw [List.take_of_length_le hPle]
            congr 1
            rw [hPlen, hold_def]
            congr 1
            rw [Nat.mul_comm]
            rw [hpos] at hdm
            generalize hg : fs.cluster_size * i = M at hdm ⊢
            omega
          | inr hr =>
            obtain ⟨hieq, c0, hch, hc0not⟩ := hr
            have hfront_eq : chain1.take i = h.chain := by
              rw [hch, hieq]
              exact List.take_left h.chain [c0]
            have hsz : h.size = h.chain.length * fs.cluster_size := by
              have hle1 : h.chain.length * fs.cluster_size ≤ h.size := by
                rw [← hieq, Nat.mul_comm]
                rw [hpos] at hdm
                generalize hg : fs.cluster_size * i = M at hdm ⊢
                omega
              generalize hg : h.chain.length * fs.cluster_size = M at hle1 hcap
              omega
            have hoff0 : off = 0 := by
              rw [hpos, hsz, ← hieq, Nat.mul_comm] at hdm
              generalize hg : fs.cluster_size * i = M at hdm
              omega
            rw [hfront_eq, hoff0, List.take_zero, List.append_nil,
              chainBytes_congr fs fs1 hdataeq h.chain]
            apply List.take_of_length_le
            rw [chainBytes_length fs h.chain hchain_lengths, hsz]
        have hfs2fat : fs2.fat = fs1.fat := by
          rw [hfs2_def]
        have hfs2cs : fs2.cluster_size = fs.cluster_size := by
          rw [hfs2_def]
          exact hcseq
        have hdata2 : fs2.data = fs.data.set c nb := by
          rw [hfs2_def]
          dsimp only
          rw [hdataeq]
        have hnb_len : nb.length = fs.cluster_size := by
          rw [hnb_def, List.length_append, List.length_append,
            List.length_take, List.length_take, List.length_drop, holdlen]
          have hb1 : 0 < (b :: bt).length := by simp
          omega
        have hwf2 : WfFs fs2 := by
          refine ⟨by rw [hfs2cs]; exact hcs, ?_, ?_⟩
          · rw [hdata2, hfs2fat, List.length_set, hdlen, hflen]
          · intro j hj
            rw [hdata2] at hj ⊢
            rw [List.length_set] at hj
            by_cases hjc : j = c
            · subst hjc
              rw [getD_set_self _ _ _ _ (by omega), hfs2cs]
              exact hnb_len
            · rw [getD_set_ne _ _ _ _ _ (fun h2 => hjc h2.symm), hfs2cs]
              exact hwf.2.2 j hj
        have hchain1_fs2 : chainBytes fs2 chain1 =
            chainBytes fs1 (chain1.take i) ++ nb := by
          conv_lhs => rw [hsplit1]
          rw [chainBytes_append, chainBytes_cons, chainBytes_nil,
            List.append_nil]
          congr 1
          · rw [hfs2_def]
            exact chainBytes_set_not_mem fs1 _ c nb hcnotfront
          · rw [hfs2_def]
            exact clusterData_set_self fs1 c nb (by rw [hdataeq]; omega)
        have hstep : (chainBytes fs2 chain1).take (h.size + k) =
            (chainBytes fs h.chain).take h.size ++ (b :: bt).take k := by
          rw [hchain1_fs2, hbase, List.take_append_eq_append_take]
          have hPle2 : (chainBytes fs1 (chain1.take i)).length ≤ h.size + k := by
            rw [hPlen, Nat.mul_comm]
            rw [hpos] at hdm
            generalize hg : fs.cluster_size * i = M at hdm ⊢
            omega
          rw [List.take_of_length_le hPle2, List.append_assoc]
          congr 1
          have hsub : h.size + k - (chainBytes fs1 (chain1.take i)).length =
              off + k := by
            rw [hPlen, Nat.mul_comm]
            rw [hpos] at hdm
            generalize hg : fs.cluster_size * i = M at hdm ⊢
            omega
          rw [hsub, hnb_def, List.take_append_eq_append_take]
          have hXY : (old.take off ++ (b :: bt).take k).length = off + k := by
            rw [List.length_append, List.length_take, List.length_take,
              holdlen]
            have hb1 : 0 < (b :: bt).length := by simp
            omega
          rw [List.take_of_length_le (by rw [hXY]), hXY, Nat.sub_self,
            List.take_zero, List.append_nil]
        have hmax : max h.size (h.pos + k) = h.size + k := by
          rw [hpos]
          omega
        have hh1chain : h1.chain = chain1 := by
          rw [hh1_def]
        have hh1size : h1.size = h.size + k := by
          rw [hh1_def]
          exact hmax
        have hh1pos : h1.pos = h.size + k := by
          rw [hh1_def]
          dsimp only
          rw [hpos]
        have hinv2 : ∀ x ∈ h1.chain,
            2 ≤ x ∧ x < fs2.fat.length ∧ fatGet fs2 x ≠ 0 := by
          rw [hh1chain]
          intro x hx
          obtain ⟨a1, a2, a3⟩ := hinv1 x hx
          refine ⟨a1, by rw [hfs2fat]; exact a2, ?_⟩
          unfold fatGet
          rw [hfs2fat]
          exact a3
        have hcap2 : h1.size ≤ h1.chain.length * fs2.cluster_size := by
          rw [hh1size, hh1chain, hlen1i, hfs2cs, Nat.succ_mul, Nat.mul_comm]
          rw [hpos] at hdm
          generalize hg : fs.cluster_size * i = M at hdm ⊢
          omega
        have hlow2 : h1.chain.length * fs2.cluster_size <
            h1.size + fs2.cluster_size := by
          rw [hh1size, hh1chain, hlen1i, hfs2cs, Nat.succ_mul, Nat.mul_comm]
          rw [hpos] at hdm
          generalize hg : fs.cluster_size * i = M at hdm ⊢
          omega
        have hfuel2 : ((b :: bt).drop k).length ≤ f := by
          rw [List.length_drop]
          have h2 : (b :: bt).length ≤ f + 1 := hfuel
          omega
        obtain ⟨ihwf, ihnd, ihinv, ihcap, ihlow, ihpos, ihcs, ihsize,
            ihcontent⟩ :=
          ih ((b :: bt).drop k) fs2 h1 fs' h' hwf2
            (by rw [hh1chain]; exact hnd1) hinv2 hcap2 hlow2
            (by rw [hh1pos, hh1size]) hfuel2 hok
        rw [hh1chain, hh1size] at ihcontent
        rw [hstep, List.append_assoc, List.take_append_drop] at ihcontent
        refine ⟨ihwf, ihnd, ihinv, ihcap, ihlow, ihpos,
          by rw [ihcs, hfs2cs], ?_, ihcontent⟩
        rw [ihsize, hh1size, List.length_drop]
        omega
/-- C1 (amended): from a freshly created (empty) file, when write_all of a
buffer succeeds, seek(0) followed by read_to_end returns exactly the buffer,
on every FAT variant. -/
theorem c1_roundtrip_fresh_file (v : FatType) (fs : FsState) (h : FileHandle)
    (buf : List Nat) (fs' : FsState) (h' : FileHandle)
    (hwf : WfFs fs) (hch : h.chain = []) (hsz : h.size = 0)
    (hpos : h.pos = 0) (hok : writeAll v fs h buf = Except.ok (fs', h')) :
    readToEnd fs' (seekTo h' 0) = buf := by
  obtain ⟨ihwf, ihnd, ihinv, ihcap, ihlow, ihpos, ihcs, ihsize, ihcontent⟩ :=
    writeAllAux_ok v buf.length buf fs h fs' h' hwf
      (by rw [hch]; exact List.nodup_nil)
      (by rw [hch]; exact fun x hx => absurd hx (List.not_mem_nil x))
      (by rw [hch, hsz]; simp)
      (by rw [hch, hsz]; simpa using hwf.1)
      (by rw [hpos, hsz]) (le_refl _) hok
  rw [hch, chainBytes_nil, List.take_nil, List.nil_append] at ihcontent
  unfold readToEnd seekTo
  dsimp only
  rw [readToEndAux_eq fs' (h'.size + 1) { h' with pos := 0 } ihwf
    (fun c hc => (ihinv c hc).2.1) ihcap (by dsimp only; omega)]
  dsimp only
  rw [List.drop_zero, ihcontent]

/-- Counterexample to C1 as stated: on a file that already holds one byte,
writing an empty buffer at position 0 succeeds, yet seeking to 0 and reading
to end returns the old byte, not the buffer — the quantification over every
file fails for files with prior content longer than the buffer. -/
theorem c1_roundtrip_counterexample :
    WfFs fsPre ∧ WfHandle fsPre hPre ∧
    writeAll FatType.Fat16 fsPre hPre [] = Except.ok (fsPre, hPre) ∧
    readToEnd fsPre (seekTo hPre 0) ≠ ([] : List Nat) := by
  refine ⟨by decide, by decide, rfl, by decide⟩

/-- Witness for C1: writing [10, 11, 12, 13, 14] to the fresh file succeeds
and reading back returns exactly those bytes. -/
theorem c1_roundtrip_fresh_file_witness :
    readToEnd fsFreshAfter (seekTo hFreshAfter 0) = [10, 11, 12, 13, 14] :=
  c1_roundtrip_fresh_file FatType.Fat16 fsFresh hFresh [10, 11, 12, 13, 14]
    fsFreshAfter hFreshAfter (by decide) rfl rfl rfl rfl

/-- Folding set-to-zero leaves indices outside the list unchanged. -/
theorem foldl_set_zero_ne (fat : List Nat) (freed : List Nat) (x : Nat)
    (hx : x ∉ freed) :
    (freed.foldl (fun f c => f.set c 0) fat).getD x 0 = fat.getD x 0 := by
  induction freed generalizing fat with
  | nil => rfl
  | cons y ys ih =>
    rw [List.foldl_cons,
      ih (fat.set y 0) (fun h2 => hx (List.mem_cons_of_mem y h2))]
    exact getD_set_ne _ _ _ _ _
      (fun h2 => hx (h2 ▸ List.mem_cons_self y ys))

/-- Folding set-to-zero writes 0 at every listed in-range index. -/
theorem foldl_set_zero_mem (fat : List Nat) (freed : List Nat) (x : Nat)
    (hx : x ∈ freed) (hnd : freed.Nodup) (hlt : x < fat.length) :
    (freed.foldl (fun f c => f.set c 0) fat).getD x 0 = 0 := by
  induction freed generalizing fat with
  | nil => exact absurd hx (List.not_mem_nil x)
  | cons y ys ih =>
    rw [List.foldl_cons]
    rw [List.nodup_cons] at hnd
    rcases List.mem_cons.mp hx with hxy | hxmem
    · subst hxy
      rw [foldl_set_zero_ne _ _ _ hnd.1]
      exact getD_set_self _ _ _ _ hlt
    · exact ih (fat.set y 0) hxmem hnd.2 (by rw [List.length_set]; exact hlt)

/-- C2: after writing n bytes to a newly created (empty) file the size
equals n; and truncate() sets the size to the current position, keeps
exactly the chain prefix covering that position, and writes 0 into the FAT
entry of every freed suffix cluster. -/
theorem c2_write_size_truncate_frees :
    (∀ (v : FatType) (fs : FsState) (h : FileHandle) (buf : List Nat)
      (fs' : FsState) (h' : FileHandle), WfFs fs → h.chain = [] →
      h.size = 0 → h.pos = 0 →
      writeAll v fs h buf = Except.ok (fs', h') → h'.size = buf.length) ∧
    (∀ (v : FatType) (fs : FsState) (h : FileHandle), h.chain.Nodup →
      (∀ c ∈ h.chain, c < fs.fat.length) →
      (truncate v fs h).2.size = h.pos ∧
      (truncate v fs h).2.chain =
        h.chain.take (clustersFor fs.cluster_size h.pos) ∧
      (∀ c ∈ h.chain.drop (clustersFor fs.cluster_size h.pos),
        fatGet (truncate v fs h).1 c = 0)) := by
  constructor
  · intro v fs h buf fs' h' hwf hch hsz hpos hok
    obtain ⟨-, -, -, -, -, -, -, ihsize, -⟩ :=
      writeAllAux_ok v buf.length buf fs h fs' h' hwf
        (by rw [hch]; exact List.nodup_nil)
        (by rw [hch]; exact fun x hx => absurd hx (List.not_mem_nil x))
        (by rw [hch, hsz]; simp)
        (by rw [hch, hsz]; simpa using hwf.1)
        (by rw [hpos, hsz]) (le_refl _) hok
    rw [ihsize, hsz, Nat.zero_add]
  · intro v fs h hnd hmem
    refine ⟨rfl, rfl, ?_⟩
    intro c hc
    have hcmem : c ∈ h.chain := List.drop_subset _ _ hc
    have hclt : c < fs.fat.length := hmem c hcmem
    have hndfreed :
        (h.chain.drop (clustersFor fs.cluster_size h.pos)).Nodup :=
      List.Nodup.sublist (List.drop_sublist _ _) hnd
    have hne : ¬ (h.chain.drop
        (clustersFor fs.cluster_size h.pos)).isEmpty = true := by
      intro hemp
      rw [List.isEmpty_iff] at hemp
      rw [hemp] at hc
      exact List.not_mem_nil c hc
    unfold truncate fatGet
    dsimp only
    rw [if_neg hne]
    cases hlast : (h.chain.take
        (clustersFor fs.cluster_size h.pos)).getLast? with
    | none =>
      exact foldl_set_zero_mem fs.fat _ c hc hndfreed hclt
    | some tail =>
      have htmem : tail ∈ h.chain.take (clustersFor fs.cluster_size h.pos) :=
        getLast?_some_mem _ tail hlast
      have hdisj : List.Disjoint
          (h.chain.take (clustersFor fs.cluster_size h.pos))
          (h.chain.drop (clustersFor fs.cluster_size h.pos)) := by
        have h2 : (h.chain.take (clustersFor fs.cluster_size h.pos) ++
            h.chain.drop (clustersFor fs.cluster_size h.pos)).Nodup := by
          rw [List.take_append_drop]
          exact hnd
        exact (List.nodup_append.mp h2).2.2
      have htne : tail ≠ c := fun h2 => hdisj htmem (by rw [h2]; exact hc)
      rw [getD_set_ne _ _ _ _ _ htne]
      exact foldl_set_zero_mem fs.fat _ c hc hndfreed hclt

/-- Witness for C2: the five-byte write gives size 5, and truncate at
position 3 keeps cluster 2 and frees cluster 3. -/
theorem c2_write_size_truncate_frees_witness :
    hFreshAfter.size = [10, 11, 12, 13, 14].length ∧
    ((truncate FatType.Fat16 fsFreshAfter hTrunc).2.size = hTrunc.pos ∧
      (truncate FatType.Fat16 fsFreshAfter hTrunc).2.chain =
        hTrunc.chain.take
          (clustersFor fsFreshAfter.cluster_size hTrunc.pos) ∧
      ∀ c ∈ hTrunc.chain.drop
          (clustersFor fsFreshAfter.cluster_size hTrunc.pos),
        fatGet (truncate FatType.Fat16 fsFreshAfter hTrunc).1 c = 0) := by
  constructor
  · exact c2_write_size_truncate_frees.1 FatType.Fat16 fsFresh hFresh
      [10, 11, 12, 13, 14] fsFreshAfter hFreshAfter (by decide) rfl rfl rfl rfl
  · exact c2_write_size_truncate_frees.2 FatType.Fat16 fsFreshAfter hTrunc
      (by decide) (by decide)

end AxFatFs
